import Mathlib

set_option maxRecDepth 8000

namespace I2L

/-! Shallow embedding of `src/icinga2_linter.py`.  Lines and paths are
modelled as lists of characters (`Chars`); a file's content is the list of
its lines (a trailing newline on a line is immaterial because the source
strips every line before inspecting it). -/

abbrev Chars := List Char

def isWs (c : Char) : Bool := c.isWhitespace

/-- Python `str.strip()`: drop leading and trailing whitespace. -/
def strip (s : Chars) : Chars :=
  ((s.dropWhile isWs).reverse.dropWhile isWs).reverse

/-- Python `str.split()` with no argument: the maximal runs of
non-whitespace characters, in order.  `fuel` only bounds the recursion
depth (`splitWs` supplies the list's length, which always suffices since
`dropWhile` never lengthens a list). -/
def splitWsF : Nat → Chars → List Chars
  | 0, _ => []
  | _, [] => []
  | fuel + 1, c :: cs =>
    if isWs c then splitWsF fuel cs
    else (c :: cs.takeWhile (fun d => !isWs d)) :: splitWsF fuel (cs.dropWhile (fun d => !isWs d))

def splitWs (s : Chars) : List Chars := splitWsF s.length s

/-- Python `tokens[1].strip('"')`: drop leading and trailing double quotes. -/
def stripQuotes (t : Chars) : Chars :=
  ((t.dropWhile (fun c => c == '\x22')).reverse.dropWhile (fun c => c == '\x22')).reverse

/-- Python `needle in hay` (substring containment). -/
def containsStr (needle hay : Chars) : Bool :=
  (List.range (hay.length + 1)).any (fun i => needle.isPrefixOf (hay.drop i))

def KEYWORDS : List Chars := ["object".data, "apply".data, "template".data]

def VALID_OBJECT_TYPES : List Chars :=
  ["ApiUser".data, "CheckCommand".data, "Dependency".data, "Endpoint".data,
   "EventCommand".data, "Host".data, "HostGroup".data, "Notification".data,
   "NotificationCommand".data, "ScheduledDowntime".data, "Service".data,
   "ServiceGroup".data, "Timeperiod".data, "User".data, "UserGroup".data,
   "Zone".data, "Comment".data, "Downtime".data, "ApiListener".data,
   "CheckerComponent".data, "CompatLogger".data, "ElasticsearchWriter".data,
   "ExternalCommandListener".data, "FileLogger".data, "GelfWriter".data,
   "GraphiteWriter".data, "IcingaApplication".data, "IcingaDB".data,
   "IdoMySqlConnection".data, "IdoPgsqlConnection".data, "InfluxdbWriter".data,
   "Influxdb2Writer".data, "JournaldLogger".data, "LiveStatusListener".data,
   "NotificationComponent".data, "OpenTsdbWriter".data, "PerfdataWriter".data,
   "SyslogLogger".data, "WindowsEventLogLogger".data]

def SPECIAL_KEYWORDS : List Chars := ["import".data, "assign".data, "ignore".data]

/-- The character loop of `is_quotes_balanced`, carried flags
`(in_single, in_double, escaped)`; returns the final
`(in_single, in_double)` pair. -/
def qloop : Chars → Bool → Bool → Bool → Bool × Bool
  | [], sg, db, _ => (sg, db)
  | c :: cs, sg, db, esc =>
    if esc then qloop cs sg db false
    else if c == '\\' then qloop cs sg db true
    else if c == '\x22' && !sg then qloop cs sg (!db) esc
    else if c == '\x27' && !db then qloop cs (!sg) db esc
    else qloop cs sg db esc

/-- `is_quotes_balanced` from the source: balanced iff both flags are
false after the scan. -/
def is_quotes_balanced (s : Chars) : Bool :=
  let p := qloop s false false false
  !p.1 && !p.2

/-! ### Model of the `difflib` routines used by `suggest_correction`

`suggest_correction(word, valid_words)` is
`difflib.get_close_matches(word, valid_words, n=1, cutoff=0.8)` (head or
`None`).  Ratios `2*M/T` are compared as exact rationals below;
`difflib`'s `real_quick_ratio`/`quick_ratio` pre-filters are upper bounds
of `ratio` and hence do not change which candidates pass the cutoff. -/

/-- Positions of `c` in `b`, ascending (`SequenceMatcher`'s `b2j[c]`). -/
def jIndices (b : Chars) (c : Char) : List Nat :=
  (List.range b.length).filter (fun j => b.get? j == some c)

def lookupJ (m : List (Nat × Nat)) (j : Nat) : Nat :=
  match m.find? (fun p => p.1 == j) with
  | some p => p.2
  | none => 0

structure FLM where
  besti : Nat
  bestj : Nat
  bestsize : Nat

/-- One `i`-row of `SequenceMatcher.find_longest_match`'s dynamic program
(`j2len`/`newj2len` as association lists; `j ≥ bhi` entries are skipped,
which agrees with the Python `break` because the `j` list is ascending). -/
def flmRow (blo bhi i : Nat) (j2len : List (Nat × Nat)) (best : FLM) (js : List Nat) :
    List (Nat × Nat) × FLM :=
  js.foldl
    (fun acc j =>
      if j < blo || bhi ≤ j then acc
      else
        let k := (if j == 0 then 0 else lookupJ j2len (j - 1)) + 1
        let m := (j, k) :: acc.1
        if acc.2.bestsize < k then (m, ⟨i + 1 - k, j + 1 - k, k⟩) else (m, acc.2))
    ([], best)

/-- `SequenceMatcher.find_longest_match` on `a[alo:ahi]`, `b[blo:bhi]`.
With no junk and no popular entries (all strings here are far below the
autojunk threshold) the post-loop extension `while` loops cannot fire, so
the dynamic program's answer is the result. -/
def find_longest_match (a b : Chars) (alo ahi blo bhi : Nat) : FLM :=
  ((List.range' alo (ahi - alo)).foldl
    (fun acc i =>
      match a.get? i with
      | some c => flmRow blo bhi i acc.1 acc.2 (jIndices b c)
      | none => acc)
    ([], ⟨alo, blo, 0⟩)).2

/-- Total size of the blocks of `SequenceMatcher.get_matching_blocks`
(the recursion of the queue-based version); `fuel` only bounds the depth,
which is at most the interval length since each found block is nonempty. -/
def matchesAux (a b : Chars) : Nat → Nat → Nat → Nat → Nat → Nat
  | 0, _, _, _, _ => 0
  | fuel + 1, alo, ahi, blo, bhi =>
    let m := find_longest_match a b alo ahi blo bhi
    if m.bestsize == 0 then 0
    else
      m.bestsize + matchesAux a b fuel alo m.besti blo m.bestj +
        matchesAux a b fuel (m.besti + m.bestsize) ahi (m.bestj + m.bestsize) bhi

def matchesTotal (a b : Chars) : Nat :=
  matchesAux a b (a.length + 1) 0 a.length 0 b.length

/-- `SequenceMatcher(None, a, b).ratio() ≥ 0.8`, compared exactly:
`2*M/(|a|+|b|) ≥ 4/5 ↔ 10*M ≥ 4*(|a|+|b|)`. -/
def ratioGeCutoff (a b : Chars) : Bool :=
  decide (4 * (a.length + b.length) ≤ 10 * matchesTotal a b)

/-- Python string `<` (lexicographic by code point), used by
`heapq.nlargest`'s tuple comparison as the tie-break on equal ratios. -/
def charsLt : Chars → Chars → Bool
  | [], [] => false
  | [], _ :: _ => true
  | _ :: _, [] => false
  | c :: cs, d :: ds =>
    if c.val < d.val then true
    else if d.val < c.val then false
    else charsLt cs ds

/-- `(ratio₁, w₁) < (ratio₂, w₂)` on `heapq.nlargest`'s tuples, the ratios
`m/T` compared cross-multiplied. -/
def tupleLt (m1 T1 : Nat) (w1 : Chars) (m2 T2 : Nat) (w2 : Chars) : Bool :=
  if m1 * T2 < m2 * T1 then true
  else if m2 * T1 < m1 * T2 then false
  else charsLt w1 w2

/-- `suggest_correction` from the source:
`difflib.get_close_matches(word, valid_words, n=1, cutoff=0.8)`, returning
its head when nonempty.  `SequenceMatcher(None, x, word)` has `a = x` and
`b = word`. -/
def suggest_correction (word : Chars) (valid : List Chars) : Option Chars :=
  (valid.filter (fun x => ratioGeCutoff x word)).foldl
    (fun best x =>
      match best with
      | none => some x
      | some bx =>
        if tupleLt (2 * matchesTotal bx word) (bx.length + word.length) bx
            (2 * matchesTotal x word) (x.length + word.length) x
        then some x else some bx)
    none

/-! ### The line scanner of `lint_file` -/

/-- `multiline_structure_type` values. -/
inductive MType
  | array
  | dict
deriving DecidableEq

/-- The per-file mutable scan state of `lint_file`: the bracket stack
(head = most recently pushed frame, each frame `(kind, opened_at_line)`),
`inside_object`, `inside_multiline_structure` and
`multiline_structure_type`. -/
structure ScanSt where
  braceStack : List (Char × Nat)
  insideObject : Bool
  insideMulti : Bool
  multiType : Option MType
deriving DecidableEq

def initSt : ScanSt := ⟨[], false, false, none⟩

/-- `f"{path}:{lineno}: {body}"`. -/
def mkMsg (path : Chars) (n : Nat) (body : Chars) : Chars :=
  path ++ [':'] ++ Nat.toDigits 10 n ++ [':', ' '] ++ body

def msgInvalidType (ot : Chars) : Chars :=
  "ERROR \x27".data ++ ot ++ "\x27 is not a valid object type.".data

def msgApplyTo (ot : Chars) : Chars :=
  "ERROR \x27apply ".data ++ ot ++ "\x27 must include \x27to Host\x27 or \x27to Service\x27.".data

def msgUnbalObj : Chars := "ERROR unbalanced quotes in object definition".data

def msgWarnKw (t sug : Chars) : Chars :=
  "WARN \x27".data ++ t ++ "\x27 is not a valid keyword. Did you mean \x27".data ++ sug ++ "\x27?".data

def msgErrKw (t : Chars) : Chars :=
  "ERROR \x27".data ++ t ++ "\x27 is not a valid keyword.".data

def msgMismSq : Chars := "ERROR mismatched bracket: expected \x27]\x27".data

def msgMismCu : Chars :=
  "ERROR mismatched bracket: expected \x27]\x27 but found \x27\x7d\x27".data

def msgUnclosedArr : Chars := "ERROR unclosed array structure".data

def msgUnclosedDict : Chars := "ERROR unclosed dictionary structure".data

def msgUnbalMulti : Chars := "ERROR unbalanced quotes in multiline structure".data

def msgImportOp : Chars := "ERROR \x27import\x27 must not be used with an operator".data

def msgNoValue (nm op : Chars) : Chars :=
  "ERROR attribute \x27".data ++ nm ++ "\x27 assigned with operator \x27".data ++ op ++
    "\x27 but no value".data

def msgInvalidAttr (s : Chars) : Chars :=
  "ERROR invalid attribute syntax: \x27".data ++ s ++ "\x27".data

def msgParseFailed (e : Chars) : Chars :=
  "ERROR parsing attribute failed: ".data ++ e

def msgUnclosedBracket (c : Char) : Chars :=
  "ERROR unclosed bracket \x27".data ++ [c] ++ "\x27".data

def msgUnbal : Chars := "ERROR unbalanced quotes".data

/-- The Python regex `re.search(r'\s*(=|\+=|-=|\*=|/=)\s*', stripped)` is
truthy iff the line contains some `=` character (the bare `=` alternative
matches at any `=`, and every other alternative contains `=`). -/
def hasOp (s : Chars) : Bool := s.contains '='

def isIdentStart (c : Char) : Bool := c.isAlpha || c == '_'

def isIdentChar (c : Char) : Bool := c.isAlphanum || c == '_'

/-- The anchored match
`re.match(r'^([a-zA-Z_][a-zA-Z0-9_]*)\s*(=|\+=|-=|\*=|/=)\s*$', stripped)`
returning `(group(1), group(2))`: an identifier, optional whitespace, an
operator chosen first-alternative-first, then only whitespace to the end.
The identifier's maximal munch is exact because no operator begins with an
identifier character or whitespace. -/
def attrAssign (s : Chars) : Option (Chars × Chars) :=
  match s with
  | [] => none
  | c :: cs =>
    if isIdentStart c then
      let nm := c :: cs.takeWhile isIdentChar
      let r2 := (cs.dropWhile isIdentChar).dropWhile isWs
      match r2 with
      | '=' :: r3 => if r3.all isWs then some (nm, "=".data) else none
      | '+' :: '=' :: r3 => if r3.all isWs then some (nm, "+=".data) else none
      | '-' :: '=' :: r3 => if r3.all isWs then some (nm, "-=".data) else none
      | '*' :: '=' :: r3 => if r3.all isWs then some (nm, "*=".data) else none
      | '/' :: '=' :: r3 => if r3.all isWs then some (nm, "/=".data) else none
      | _ => none
    else none

/-- The `for _ in range(open_square)` push loop: each iteration pushes a
`('[', lineno)` frame and sets the multiline flags to `array`. -/
def pushSquares : Nat → Nat → ScanSt → ScanSt
  | 0, _, st => st
  | k + 1, n, st =>
    pushSquares k n
      { st with braceStack := ('[', n) :: st.braceStack,
                insideMulti := true, multiType := some .array }

/-- The `for _ in range(open_curly)` push loop: each iteration pushes a
`('{', lineno)` frame and, when not inside an object, sets the multiline
flags to `dict`. -/
def pushCurlies : Nat → Nat → ScanSt → ScanSt
  | 0, _, st => st
  | k + 1, n, st =>
    let st1 : ScanSt := { st with braceStack := ('\x7b', n) :: st.braceStack }
    let st2 := if st1.insideObject then st1
               else { st1 with insideMulti := true, multiType := some .dict }
    pushCurlies k n st2

/-- The `for _ in range(close_square)` loop: pop when the top frame is
`'['`, otherwise (including an empty stack) emit the mismatch error and
leave the stack alone. -/
def closeSquares : Nat → Chars → Nat → ScanSt → ScanSt × List Chars
  | 0, _, _, st => (st, [])
  | k + 1, path, n, st =>
    match st.braceStack with
    | ('[', _) :: rest =>
      closeSquares k path n { st with braceStack := rest }
    | _ =>
      let r := closeSquares k path n st
      (r.1, mkMsg path n msgMismSq :: r.2)

/-- The `for _ in range(close_curly)` loop: pop a `'{'` top, report a
mismatch on a non-`'{'` top, do nothing on an empty stack; after every
iteration, when the stack is empty and we were inside an object, leave
the object (clearing the multiline flags). -/
def closeCurlies : Nat → Chars → Nat → ScanSt → ScanSt × List Chars
  | 0, _, _, st => (st, [])
  | k + 1, path, n, st =>
    let step : ScanSt × List Chars :=
      match st.braceStack with
      | [] => (st, [])
      | ('\x7b', _) :: rest => ({ st with braceStack := rest }, [])
      | _ :: _ => (st, [mkMsg path n msgMismCu])
    let st2 :=
      if step.1.braceStack.isEmpty && step.1.insideObject then
        { step.1 with insideObject := false, insideMulti := false, multiType := none }
      else step.1
    let r := closeCurlies k path n st2
    (r.1, step.2 ++ r.2)

/-- Section 2 of the loop body: bracket counting and tracking, the
per-line unclosed-array/dict checks and the multiline quote check.
`open_paren`/`close_paren` are counted in the source but never used. -/
def section2 (path : Chars) (n : Nat) (s : Chars) (st : ScanSt) : ScanSt × List Chars :=
  let oSq := s.count '['
  let cSq := s.count ']'
  let oCu := s.count '\x7b'
  let cCu := s.count '\x7d'
  let st1 := pushSquares oSq n st
  let st2 := pushCurlies oCu n st1
  let r3 := closeSquares cSq path n st2
  let r4 := closeCurlies cCu path n r3.1
  let st5 := r4.1
  let iss5 :=
    if st5.insideMulti && st5.multiType == some .array && st5.braceStack.isEmpty then
      [mkMsg path n msgUnclosedArr]
    else if st5.insideMulti && st5.multiType == some .dict && st5.braceStack.isEmpty then
      [mkMsg path n msgUnclosedDict]
    else []
  let iss6 := if st5.insideMulti && !is_quotes_balanced s then [mkMsg path n msgUnbalMulti] else []
  (st5, r3.2 ++ r4.2 ++ iss5 ++ iss6)

/-- Section 3 of the loop body (attribute validation inside an object or
multiline structure).  Returns the issues and whether the branch ended in
`continue` (which skips the final quote check).  The state is untouched
here.  The `parse` call is abstracted by `pf` (see `parseOk`). -/
def section3 (pf : Chars → Option Chars) (path : Chars) (n : Nat) (s : Chars)
    (st : ScanSt) : List Chars × Bool :=
  if st.insideObject || st.insideMulti then
    match splitWs s with
    | [] => ([], false)
    | t0 :: _ =>
      if t0 == "import".data && hasOp s then ([mkMsg path n msgImportOp], true)
      else if SPECIAL_KEYWORDS.contains t0 then ([], false)
      else if st.insideMulti && st.multiType == some .array &&
          (s.getLast? == some ',' || s.getLast? == some ']' || s.head? == some '\x22') then
        ([], true)
      else if st.insideMulti && st.multiType == some .dict &&
          (s.getLast? == some ',' || s.getLast? == some '\x7d') then
        ([], true)
      else
        let pre := if st.insideMulti && !is_quotes_balanced s then [mkMsg path n msgUnbalMulti] else []
        match attrAssign s with
        | some g => (pre ++ [mkMsg path n (msgNoValue g.1 g.2)], true)
        | none =>
          if !hasOp s && !st.insideMulti then
            (pre ++ [mkMsg path n (msgInvalidAttr s)], false)
          else
            match pf s with
            | some e => (pre ++ [mkMsg path n (msgParseFailed e)], false)
            | none => (pre, false)
  else ([], false)

/-- Sections 2–4 of the loop body, run when section 1 did not `continue`. -/
def sections234 (pf : Chars → Option Chars) (path : Chars) (n : Nat) (s : Chars)
    (st : ScanSt) : ScanSt × List Chars :=
  let r2 := section2 path n s st
  let r3 := section3 pf path n s r2.1
  let iss4 :=
    if r3.2 then []
    else if !is_quotes_balanced s then [mkMsg path n msgUnbal] else []
  (r2.1, r2.2 ++ r3.1 ++ iss4)

/-- One iteration of `lint_file`'s `for i, line in enumerate(lines)` loop:
strip, skip blank/`//` lines, section 1 (top-level keyword handling with
its two `continue` paths), then sections 2–4. -/
def lintLine (pf : Chars → Option Chars) (path : Chars) (n : Nat) (raw : Chars)
    (st : ScanSt) : ScanSt × List Chars :=
  let s := strip raw
  if s.isEmpty || "//".data.isPrefixOf s then (st, [])
  else if !st.insideObject && !st.insideMulti then
    match splitWs s with
    | [] => sections234 pf path n s st
    | t0 :: ts =>
      if KEYWORDS.contains t0 then
        let iss1 :=
          match ts with
          | [] => []
          | t1 :: _ =>
            let ot := stripQuotes t1
            (if VALID_OBJECT_TYPES.contains ot then [] else [mkMsg path n (msgInvalidType ot)]) ++
            (if t0 == "apply".data && (ot == "Dependency".data || ot == "Notification".data) &&
                !(containsStr "to Host".data s || containsStr "to Service".data s) then
              [mkMsg path n (msgApplyTo ot)]
            else [])
        let iss2 := iss1 ++ (if !is_quotes_balanced s then [mkMsg path n msgUnbalObj] else [])
        if s.contains '\x7b' then
          ({ st with braceStack := List.replicate (s.count '\x7b') ('\x7b', n) ++ st.braceStack,
                     insideObject := true }, iss2)
        else
          let w :=
            match suggest_correction t0 KEYWORDS with
            | some sug => mkMsg path n (msgWarnKw t0 sug)
            | none => mkMsg path n (msgErrKw t0)
          (st, iss2 ++ [w])
      else sections234 pf path n s st
  else sections234 pf path n s st

/-- The whole loop of `lint_file`, starting at line number `n`. -/
def lintLines (pf : Chars → Option Chars) (path : Chars) :
    List Chars → Nat → ScanSt → ScanSt × List Chars
  | [], _, st => (st, [])
  | l :: ls, n, st =>
    let r1 := lintLine pf path n l st
    let r2 := lintLines pf path ls (n + 1) r1.1
    (r2.1, r1.2 ++ r2.2)

/-- The scan state left at end of file. -/
def finalState (pf : Chars → Option Chars) (path : Chars) (lines : List Chars) : ScanSt :=
  (lintLines pf path lines 1 initSt).1

/-- `lint_file` with the `open()`/`readlines()` I/O abstracted out:
`lines` is the file's content.  After the loop, every frame still on the
stack is drained, bottom to top, as an unclosed-bracket error.  The open
step itself is modelled by `lint_file_open`. -/
def lint_file (pf : Chars → Option Chars) (path : Chars) (lines : List Chars) : List Chars :=
  let r := lintLines pf path lines 1 initSt
  r.2 ++ r.1.braceStack.reverse.map (fun f => mkMsg path f.2 (msgUnclosedBracket f.1))

/-- Modelled from the spec: the `parse` module (class `Icinga2Parser`,
imported at the top of the source) is not under `src/`; §4.4 of the spec
assigns no diagnostic to an operator-bearing attribute line beyond those
already listed, so the parser is modelled as total — `parse` never raises
and the `except` branch never fires.  General theorems quantify over an
arbitrary `pf` instead, so nothing below depends on this choice. -/
def parseOk : Chars → Option Chars := fun _ => none

/-- The `open(path)`/`readlines()` step of `lint_file`: the file system is
a partial map from paths to contents, and an unreadable file raises
(`Except.error`), exactly as the uncaught `OSError` of `open` does. -/
def lint_file_open (fs : Chars → Option (List Chars)) (pf : Chars → Option Chars)
    (p : Chars) : Except Chars (List Chars) :=
  match fs p with
  | none => Except.error ("cannot open ".data ++ p)
  | some lines => Except.ok (lint_file pf p lines)

/-- `run_linter`'s file loop: `lint_file` is called on each discovered
file in turn with no `try`/`except`, so an exception from `open`
propagates and aborts the whole run; otherwise the printed diagnostics
are the concatenation of the per-file lists. -/
def run_linter (fs : Chars → Option (List Chars)) (pf : Chars → Option Chars) :
    List Chars → Except Chars (List Chars)
  | [] => Except.ok []
  | p :: ps =>
    match lint_file_open fs pf p with
    | Except.error e => Except.error e
    | Except.ok iss =>
      match run_linter fs pf ps with
      | Except.error e => Except.error e
      | Except.ok rest => Except.ok (iss ++ rest)

/-! ### Spec-side definitions and invariants used by the claims -/

/-- Modelled from the spec (§4.1), for the refinement claim about the
Quote-Balance Checker: the flags of the described left-to-right scan. -/
structure QState where
  in_single : Bool
  in_double : Bool
  escaped : Bool

/-- One step of the spec's scan: a backslash sets `escaped` for exactly
the next character; `"` toggles `in_double` only outside a single-quoted
run; `'` toggles `in_single` only outside a double-quoted run. -/
def qstep (st : QState) (c : Char) : QState :=
  if st.escaped then { st with escaped := false }
  else if c == '\\' then { st with escaped := true }
  else if c == '\x22' && !st.in_single then { st with in_double := !st.in_double }
  else if c == '\x27' && !st.in_double then { st with in_single := !st.in_single }
  else st

def quoteScanSpec (s : Chars) : QState :=
  s.foldl qstep ⟨false, false, false⟩

/-- Invariant of the bracket stack: frames are only curly or square, their
line numbers are bounded by the current line and non-increasing from the
top down (so the bottom-to-top drain at EOF is ordered by opening line). -/
def StackInv (n : Nat) (stk : List (Char × Nat)) : Prop :=
  stk.Pairwise (fun a b => b.2 ≤ a.2) ∧ ∀ f ∈ stk, (f.1 = '\x7b' ∨ f.1 = '[') ∧ f.2 ≤ n

/-- Every message of `l` is `mkMsg path _ _`, i.e. it is tagged with the
path of the file being linted (diagnostics never cite another file). -/
def MsgsFrom (path : Chars) (l : List Chars) : Prop :=
  ∀ m ∈ l, ∃ k b, m = mkMsg path k b

/-- Concrete two-file run for the duplicate-name scenario of the spec:
both files declare `object Host "srv1"`. -/
def fsDup : Chars → Option (List Chars) := fun p =>
  if p = "fileA.conf".data then some ["object Host \x22srv1\x22 \x7b".data, "\x7d".data]
  else if p = "fileB.conf".data then some ["object Host \x22srv1\x22 \x7b".data, "\x7d".data]
  else none

/-- Concrete file system with an unreadable first file and a readable
second file that carries a diagnostic. -/
def fsErr : Chars → Option (List Chars) := fun p =>
  if p = "a.conf".data then none
  else if p = "b.conf".data then some ["]".data]
  else none

/-! ### Theorems -/

theorem qloop_eq_foldl (s : Chars) : ∀ sg db esc : Bool,
    qloop s sg db esc =
      ((List.foldl qstep ⟨sg, db, esc⟩ s).in_single,
       (List.foldl qstep ⟨sg, db, esc⟩ s).in_double) := by
  induction s with
  | nil => intro sg db esc; rfl
  | cons c cs ih =>
    intro sg db esc
    rw [List.foldl_cons]
    cases esc with
    | true =>
      have hq : qloop (c :: cs) sg db true = qloop cs sg db false := by
        simp [qloop]
      have hs : qstep ⟨sg, db, true⟩ c = ⟨sg, db, false⟩ := by
        simp [qstep]
      rw [hq, hs]; exact ih sg db false
    | false =>
      by_cases h2 : (c == '\\') = true
      · have hq : qloop (c :: cs) sg db false = qloop cs sg db true := by
          simp [qloop, h2]
        have hs : qstep ⟨sg, db, false⟩ c = ⟨sg, db, true⟩ := by
          simp [qstep, h2]
        rw [hq, hs]; exact ih sg db true
      · by_cases h3 : (c == '\x22' && !sg) = true
        · have hq : qloop (c :: cs) sg db false = qloop cs sg (!db) false := by
            simp only [qloop, h2, h3]
            simp
          have hs : qstep ⟨sg, db, false⟩ c = ⟨sg, !db, false⟩ := by
            simp [qstep, h2, h3]
          rw [hq, hs]; exact ih sg (!db) false
        · by_cases h4 : (c == '\x27' && !db) = true
          · have hq : qloop (c :: cs) sg db false = qloop cs (!sg) db false := by
              simp only [qloop, h2, h3]
              simp [h4]
            have hs : qstep ⟨sg, db, false⟩ c = ⟨!sg, db, false⟩ := by
              simp only [qstep]
              simp [h2, h3, h4]
            rw [hq, hs]; exact ih (!sg) db false
          · have hq : qloop (c :: cs) sg db false = qloop cs sg db false := by
              simp only [qloop, h2, h3]
              simp [h4]
            have hs : qstep ⟨sg, db, false⟩ c = ⟨sg, db, false⟩ := by
              simp only [qstep]
              simp [h2, h3, h4]
            rw [hq, hs]; exact ih sg db false

/-- C7: the quote-balance checker returns balanced exactly when the
left-to-right scan with the `escaped`/`in_single`/`in_double` flags (a
backslash escaping exactly the next character, each quote kind inert
inside a run of the other kind) ends with both quote flags false. -/
theorem C7_quote_balance (s : Chars) :
    is_quotes_balanced s = true ↔
      (quoteScanSpec s).in_single = false ∧ (quoteScanSpec s).in_double = false := by
  simp only [is_quotes_balanced, quoteScanSpec, qloop_eq_foldl s false false false,
    Bool.and_eq_true, Bool.not_eq_true']

/-- C10: a line whose stripped text is empty or starts with `//` is
skipped: no diagnostic is emitted and the whole scan state (bracket
stack, `inside_object`, multiline-structure state) is unchanged. -/
theorem C10_skip_lines (pf : Chars → Option Chars) (path : Chars) (n : Nat)
    (raw : Chars) (st : ScanSt)
    (h : ((strip raw).isEmpty || "//".data.isPrefixOf (strip raw)) = true) :
    lintLine pf path n raw st = (st, []) := by
  unfold lintLine
  simp only [h, if_true]

theorem C10_skip_lines_witness :
    lintLine parseOk "f".data 7 "// note".data ⟨[('\x7b', 3)], true, false, none⟩ =
      (⟨[('\x7b', 3)], true, false, none⟩, []) ∧
    lintLine parseOk "f".data 8 "   ".data ⟨[('\x7b', 3)], true, false, none⟩ =
      (⟨[('\x7b', 3)], true, false, none⟩, []) :=
  ⟨C10_skip_lines parseOk "f".data 7 "// note".data _ (by decide),
   C10_skip_lines parseOk "f".data 8 "   ".data _ (by decide)⟩

/-- C1 counterexample: registering `("Host", "srv1")` in `fileA.conf` and
again in `fileB.conf` yields zero diagnostics — no ERROR at the later
site citing the first-seen location (there is no duplicate registry). -/
theorem C1_counterexample :
    run_linter fsDup parseOk ["fileA.conf".data, "fileB.conf".data] = Except.ok [] := by
  rfl

/-- C4 counterexample: the top-level line `objct Host "x"` (unrecognized
keyword-like first token, close to `object`) produces no keyword
diagnostic at all, against the claimed WARN/ERROR. -/
theorem C4_counterexample :
    lint_file parseOk "f.conf".data ["objct Host \x22x\x22".data] = [] := by
  rfl

/-- C5 counterexample: the one-line block comment `/* don' */` is not
skipped — it reaches the quote check and produces an unbalanced-quotes
ERROR, against the claimed comment-skipping. -/
theorem C5_counterexample :
    lint_file parseOk "f.conf".data ["/* don\x27 */".data] =
      [mkMsg "f.conf".data 1 msgUnbal] := by
  rfl

/-- C8 counterexample: an unmatched `(` pushes nothing and is not
reported at end of file. -/
theorem C8_counterexample :
    lint_file parseOk "f.conf".data ["(".data] = [] ∧
      (finalState parseOk "f.conf".data ["(".data]).braceStack = [] := by
  exact ⟨rfl, rfl⟩

/-- C9 counterexample: a `}` processed with an empty stack produces no
diagnostic at all, against the claimed "unmatched closing bracket" ERROR. -/
theorem C9_counterexample :
    lint_file parseOk "f.conf".data ["\x7d".data] = [] := by
  rfl

/-- C3 counterexample: with `a.conf` unreadable, the run aborts with the
propagated open error and `b.conf` — which carries a diagnostic — is
never scanned. -/
theorem C3_counterexample :
    run_linter fsErr parseOk ["a.conf".data, "b.conf".data] =
      Except.error ("cannot open a.conf".data) ∧
    lint_file parseOk "b.conf".data ["]".data] = [mkMsg "b.conf".data 1 msgMismSq] := by
  exact ⟨rfl, rfl⟩

/-- C3 amended: a file that cannot be opened makes the exception escape
`lint_file`; `run_linter` does not catch it, so the run aborts and the
remaining files are never scanned.  `lint_file` itself never raises for
ordinary lint findings: whenever the file is readable it returns its
diagnostics list. -/
theorem C3_amended :
    (∀ (fs : Chars → Option (List Chars)) (pf : Chars → Option Chars) (p : Chars)
        (ps : List Chars), fs p = none →
        run_linter fs pf (p :: ps) = Except.error ("cannot open ".data ++ p)) ∧
    (∀ (fs : Chars → Option (List Chars)) (pf : Chars → Option Chars) (p : Chars)
        (lines : List Chars), fs p = some lines →
        lint_file_open fs pf p = Except.ok (lint_file pf p lines)) := by
  constructor
  · intro fs pf p ps h
    simp [run_linter, lint_file_open, h]
  · intro fs pf p lines h
    simp [lint_file_open, h]

theorem C3_amended_witness :
    run_linter fsErr parseOk ["a.conf".data, "b.conf".data] =
      Except.error ("cannot open ".data ++ "a.conf".data) ∧
    lint_file_open fsErr parseOk "b.conf".data =
      Except.ok (lint_file parseOk "b.conf".data ["]".data]) :=
  ⟨C3_amended.1 fsErr parseOk "a.conf".data ["b.conf".data] (by decide),
   C3_amended.2 fsErr parseOk "b.conf".data ["]".data] (by decide)⟩

/-- C9 amended: a `]` closing against an empty stack yields exactly one
ERROR `mismatched bracket: expected ']'` (not "unmatched closing
bracket"), while `}` and `)` against an empty stack yield no diagnostic;
in every case the stack is left unchanged (still empty). -/
theorem C9_amended (pf : Chars → Option Chars) (path : Chars) :
    lint_file pf path ["]".data] = [mkMsg path 1 msgMismSq] ∧
    lint_file pf path ["\x7d".data] = [] ∧
    lint_file pf path [")".data] = [] ∧
    (finalState pf path ["]".data]).braceStack = [] ∧
    (finalState pf path ["\x7d".data]).braceStack = [] ∧
    (finalState pf path [")".data]).braceStack = [] := by
  exact ⟨rfl, rfl, rfl, rfl, rfl, rfl⟩

/-! ### Bracket-stack invariant -/

theorem stackInv_nil (n : Nat) : StackInv n [] :=
  ⟨List.Pairwise.nil, by simp⟩

theorem stackInv_mono {n m : Nat} {stk : List (Char × Nat)}
    (h : StackInv n stk) (hnm : n ≤ m) : StackInv m stk :=
  ⟨h.1, fun f hf => ⟨(h.2 f hf).1, le_trans (h.2 f hf).2 hnm⟩⟩

theorem stackInv_cons {n : Nat} {stk : List (Char × Nat)} {c : Char}
    (hc : c = '\x7b' ∨ c = '[') (h : StackInv n stk) : StackInv n ((c, n) :: stk) := by
  refine ⟨List.pairwise_cons.2 ⟨fun b hb => (h.2 b hb).2, h.1⟩, ?_⟩
  intro f hf
  rcases List.mem_cons.1 hf with hf | hf
  · subst hf; exact ⟨hc, le_refl n⟩
  · exact h.2 f hf

theorem stackInv_tail {n : Nat} {f : Char × Nat} {stk : List (Char × Nat)}
    (h : StackInv n (f :: stk)) : StackInv n stk :=
  ⟨(List.pairwise_cons.1 h.1).2, fun g hg => h.2 g (List.mem_cons_of_mem f hg)⟩

theorem pushSquares_inv (k n : Nat) : ∀ st : ScanSt, StackInv n st.braceStack →
    StackInv n (pushSquares k n st).braceStack := by
  induction k with
  | zero => intro st h; simpa [pushSquares] using h
  | succ k ih =>
    intro st h
    simp only [pushSquares]
    exact ih _ (stackInv_cons (Or.inr rfl) h)

theorem pushCurlies_inv (k n : Nat) : ∀ st : ScanSt, StackInv n st.braceStack →
    StackInv n (pushCurlies k n st).braceStack := by
  induction k with
  | zero => intro st h; simpa [pushCurlies] using h
  | succ k ih =>
    intro st h
    simp only [pushCurlies]
    have hcons : StackInv n (('\x7b', n) :: st.braceStack) := stackInv_cons (Or.inl rfl) h
    apply ih
    split <;> simpa using hcons

theorem closeSquares_inv (k : Nat) (path : Chars) (n : Nat) :
    ∀ st : ScanSt, StackInv n st.braceStack →
      StackInv n (closeSquares k path n st).1.braceStack := by
  induction k with
  | zero => intro st h; simpa [closeSquares] using h
  | succ k ih =>
    intro st h
    rcases hst : st.braceStack with _ | ⟨⟨c, l⟩, rest⟩
    · simp only [closeSquares, hst]
      exact ih st h
    · by_cases hc : c = '['
      · subst hc
        simp only [closeSquares, hst]
        apply ih
        have : StackInv n (('[', l) :: rest) := hst ▸ h
        simpa using stackInv_tail this
      · have hmatch : (match st.braceStack with
            | ('[', _) :: rest => closeSquares k path n { st with braceStack := rest }
            | _ => ((closeSquares k path n st).1, mkMsg path n msgMismSq :: (closeSquares k path n st).2)) =
            ((closeSquares k path n st).1, mkMsg path n msgMismSq :: (closeSquares k path n st).2) := by
          rw [hst]
          rcases c with ⟨cv, hv⟩
          split
          · rename_i heq
            exfalso
            cases heq
            exact hc rfl
          · rfl
        simp only [closeSquares, hmatch]
        exact ih st h

theorem closeCurlies_inv (k : Nat) (path : Chars) (n : Nat) :
    ∀ st : ScanSt, StackInv n st.braceStack →
      StackInv n (closeCurlies k path n st).1.braceStack := by
  induction k with
  | zero => intro st h; simpa [closeCurlies] using h
  | succ k ih =>
    intro st h
    simp only [closeCurlies]
    have hstep : StackInv n ((match st.braceStack with
        | [] => (st, ([] : List Chars))
        | ('\x7b', _) :: rest => ({ st with braceStack := rest }, [])
        | _ :: _ => (st, [mkMsg path n msgMismCu]) : ScanSt × List Chars)).1.braceStack := by
      rcases hst : st.braceStack with _ | ⟨⟨c, l⟩, rest⟩
      · simpa [hst] using h
      · by_cases hc : c = '\x7b'
        · subst hc
          have h2 : StackInv n (('\x7b', l) :: rest) := hst ▸ h
          simpa using stackInv_tail h2
        · rcases c with ⟨cv, hv⟩
          split <;>
            first
              | simpa using h
              | (rename_i heq
                 rw [List.cons.injEq, Prod.mk.injEq] at heq
                 exact absurd heq.1.1 hc)
    apply ih
    split <;> simpa using hstep

theorem stackInv_replicate (k n : Nat) {stk : List (Char × Nat)} (h : StackInv n stk) :
    StackInv n (List.replicate k ('\x7b', n) ++ stk) := by
  induction k with
  | zero => simpa using h
  | succ k ih => simpa [List.replicate_succ] using stackInv_cons (Or.inl rfl) ih

theorem section2_inv (path : Chars) (n : Nat) (s : Chars) (st : ScanSt)
    (h : StackInv n st.braceStack) : StackInv n (section2 path n s st).1.braceStack := by
  simp only [section2]
  exact closeCurlies_inv _ _ _ _ (closeSquares_inv _ _ _ _
    (pushCurlies_inv _ _ _ (pushSquares_inv _ _ _ h)))

theorem sections234_inv (pf : Chars → Option Chars) (path : Chars) (n : Nat) (s : Chars)
    (st : ScanSt) (h : StackInv n st.braceStack) :
    StackInv n (sections234 pf path n s st).1.braceStack := by
  simp only [sections234]
  exact section2_inv path n s st h

theorem lintLine_inv (pf : Chars → Option Chars) (path : Chars) (n : Nat) (raw : Chars)
    (st : ScanSt) (h : StackInv n st.braceStack) :
    StackInv n (lintLine pf path n raw st).1.braceStack := by
  simp only [lintLine]
  split
  · simpa using h
  · split
    · split
      · exact sections234_inv pf path n _ st h
      · split
        · split
          · simpa using stackInv_replicate _ n h
          · split <;> simpa using h
        · exact sections234_inv pf path n _ st h
    · exact sections234_inv pf path n _ st h

theorem lintLines_inv (pf : Chars → Option Chars) (path : Chars) :
    ∀ (ls : List Chars) (n : Nat) (st : ScanSt), StackInv n st.braceStack →
      StackInv (n + ls.length) (lintLines pf path ls n st).1.braceStack := by
  intro ls
  induction ls with
  | nil => intro n st h; simpa [lintLines] using h
  | cons l ls ih =>
    intro n st h
    simp only [lintLines]
    have h1 := lintLine_inv pf path n l st h
    have h2 := ih (n + 1) _ (stackInv_mono h1 (Nat.le_succ n))
    have hn : n + (l :: ls).length = n + 1 + ls.length := by
      simp [List.length_cons]; omega
    rw [hn]
    simpa using h2

theorem finalStack_inv (pf : Chars → Option Chars) (path : Chars) (lines : List Chars) :
    StackInv (1 + lines.length) (finalState pf path lines).braceStack := by
  have h := lintLines_inv pf path lines 1 initSt (by simpa [initSt] using stackInv_nil 1)
  simpa [finalState] using h

/-- C6: at end of file, each frame remaining on the bracket stack
produces exactly one "unclosed bracket" ERROR tagged with that frame's
opening line (the drain maps over the remaining frames one to one); these
diagnostics are appended after all other diagnostics of the file, and
their opening lines are in non-decreasing order. -/
theorem C6_unclosed_at_eof (pf : Chars → Option Chars) (path : Chars) (lines : List Chars) :
    lint_file pf path lines =
      (lintLines pf path lines 1 initSt).2 ++
        (finalState pf path lines).braceStack.reverse.map
          (fun f => mkMsg path f.2 (msgUnclosedBracket f.1)) ∧
    ((finalState pf path lines).braceStack.reverse.map (fun f => f.2)).Sorted (· ≤ ·) := by
  constructor
  · rfl
  · have h := (finalStack_inv pf path lines).1
    have h1 : (finalState pf path lines).braceStack.reverse.Pairwise
        (fun a b => a.2 ≤ b.2) := by
      rw [List.pairwise_reverse]
      exact h
    exact (List.pairwise_map).2 h1

/-- C8 amended: only `{` and `[` are ever pushed onto the bracket stack
(each with its kind and line number); a `(` pushes nothing, so in
particular a line consisting of an unmatched `(` yields no frame and no
diagnostic at end of file. -/
theorem C8_amended :
    (∀ (pf : Chars → Option Chars) (path : Chars) (lines : List Chars)
        (f : Char × Nat), f ∈ (finalState pf path lines).braceStack →
        f.1 = '\x7b' ∨ f.1 = '[') ∧
    (∀ (pf : Chars → Option Chars) (path : Chars), lint_file pf path ["(".data] = []) := by
  constructor
  · intro pf path lines f hf
    exact ((finalStack_inv pf path lines).2 f hf).1
  · intro pf path
    rfl

theorem C8_amended_witness :
    ((('[' : Char), (1 : Nat)).1 = '\x7b' ∨ ((('[' : Char), (1 : Nat))).1 = '[') ∧
    lint_file parseOk "g.conf".data ["(".data] = [] :=
  ⟨C8_amended.1 parseOk "f".data ["[".data] ('[', 1) (by decide),
   C8_amended.2 parseOk "g.conf".data⟩

/-! ### Shape of emitted messages (for C1) -/

theorem msgsFrom_nil (path : Chars) : MsgsFrom path [] := by
  intro m hm; simp at hm

theorem msgsFrom_cons (path : Chars) {k : Nat} {b : Chars} {l : List Chars}
    (h : MsgsFrom path l) : MsgsFrom path (mkMsg path k b :: l) := by
  intro m hm
  rcases List.mem_cons.1 hm with hm | hm
  · exact ⟨k, b, hm⟩
  · exact h m hm

theorem msgsFrom_single (path : Chars) (k : Nat) (b : Chars) :
    MsgsFrom path [mkMsg path k b] :=
  msgsFrom_cons path (msgsFrom_nil path)

theorem msgsFrom_append {path : Chars} {l1 l2 : List Chars}
    (h1 : MsgsFrom path l1) (h2 : MsgsFrom path l2) : MsgsFrom path (l1 ++ l2) := by
  intro m hm
  rcases List.mem_append.1 hm with hm | hm
  · exact h1 m hm
  · exact h2 m hm

theorem msgsFrom_ite {path : Chars} (c : Prop) [Decidable c] {l1 l2 : List Chars}
    (h1 : MsgsFrom path l1) (h2 : MsgsFrom path l2) :
    MsgsFrom path (if c then l1 else l2) := by
  split <;> assumption

theorem closeSquares_msgs (k : Nat) (path : Chars) (n : Nat) :
    ∀ st : ScanSt, MsgsFrom path (closeSquares k path n st).2 := by
  induction k with
  | zero => intro st m hm; simp [closeSquares] at hm
  | succ k ih =>
    intro st
    rcases hst : st.braceStack with _ | ⟨⟨c, l⟩, rest⟩
    · simp only [closeSquares, hst]
      exact msgsFrom_cons path (ih st)
    · by_cases hc : c = '['
      · subst hc
        simp only [closeSquares, hst]
        exact ih _
      · have hmatch : (match st.braceStack with
            | ('[', _) :: rest => closeSquares k path n { st with braceStack := rest }
            | _ => ((closeSquares k path n st).1,
                mkMsg path n msgMismSq :: (closeSquares k path n st).2)) =
            ((closeSquares k path n st).1,
              mkMsg path n msgMismSq :: (closeSquares k path n st).2) := by
          rw [hst]
          rcases c with ⟨cv, hv⟩
          split
          · rename_i heq
            exfalso
            cases heq
            exact hc rfl
          · rfl
        simp only [closeSquares, hmatch]
        exact msgsFrom_cons path (ih st)

theorem closeCurlies_msgs (k : Nat) (path : Chars) (n : Nat) :
    ∀ st : ScanSt, MsgsFrom path (closeCurlies k path n st).2 := by
  induction k with
  | zero => intro st m hm; simp [closeCurlies] at hm
  | succ k ih =>
    intro st
    simp only [closeCurlies]
    have hstep : MsgsFrom path ((match st.braceStack with
        | [] => (st, ([] : List Chars))
        | ('\x7b', _) :: rest => ({ st with braceStack := rest }, [])
        | _ :: _ => (st, [mkMsg path n msgMismCu]) : ScanSt × List Chars)).2 := by
      rcases hst : st.braceStack with _ | ⟨⟨c, l⟩, rest⟩
      · intro m hm; simp at hm
      · by_cases hc : c = '\x7b'
        · subst hc; intro m hm; simp at hm
        · rcases c with ⟨cv, hv⟩
          split <;>
            first
              | exact msgsFrom_single path n msgMismCu
              | (intro m hm; simp at hm)
    exact msgsFrom_append hstep (ih _)

theorem section2_msgs (path : Chars) (n : Nat) (s : Chars) (st : ScanSt) :
    MsgsFrom path (section2 path n s st).2 := by
  simp only [section2]
  refine msgsFrom_append (msgsFrom_append (msgsFrom_append
    (closeSquares_msgs _ _ _ _) (closeCurlies_msgs _ _ _ _)) ?_) ?_
  · exact msgsFrom_ite _ (msgsFrom_single _ _ _)
      (msgsFrom_ite _ (msgsFrom_single _ _ _) (msgsFrom_nil _))
  · exact msgsFrom_ite _ (msgsFrom_single _ _ _) (msgsFrom_nil _)

theorem section3_msgs (pf : Chars → Option Chars) (path : Chars) (n : Nat) (s : Chars)
    (st : ScanSt) : MsgsFrom path (section3 pf path n s st).1 := by
  simp only [section3]
  split
  · split
    · exact msgsFrom_nil path
    · split
      · exact msgsFrom_single path n msgImportOp
      · split
        · exact msgsFrom_nil path
        · split
          · exact msgsFrom_nil path
          · split
            · exact msgsFrom_nil path
            · split
              · exact msgsFrom_append
                  (msgsFrom_ite _ (msgsFrom_single _ _ _) (msgsFrom_nil _))
                  (msgsFrom_single _ _ _)
              · split
                · exact msgsFrom_append
                    (msgsFrom_ite _ (msgsFrom_single _ _ _) (msgsFrom_nil _))
                    (msgsFrom_single _ _ _)
                · split
                  · exact msgsFrom_append
                      (msgsFrom_ite _ (msgsFrom_single _ _ _) (msgsFrom_nil _))
                      (msgsFrom_single _ _ _)
                  · exact msgsFrom_ite _ (msgsFrom_single _ _ _) (msgsFrom_nil _)
  · exact msgsFrom_nil path

theorem sections234_msgs (pf : Chars → Option Chars) (path : Chars) (n : Nat) (s : Chars)
    (st : ScanSt) : MsgsFrom path (sections234 pf path n s st).2 := by
  simp only [sections234]
  refine msgsFrom_append (msgsFrom_append (section2_msgs _ _ _ _)
    (section3_msgs _ _ _ _ _)) ?_
  exact msgsFrom_ite _ (msgsFrom_nil _)
    (msgsFrom_ite _ (msgsFrom_single _ _ _) (msgsFrom_nil _))

theorem lintLine_msgs (pf : Chars → Option Chars) (path : Chars) (n : Nat) (raw : Chars)
    (st : ScanSt) : MsgsFrom path (lintLine pf path n raw st).2 := by
  simp only [lintLine]
  split
  · exact msgsFrom_nil path
  · split
    · split
      · exact sections234_msgs _ _ _ _ _
      · split
        · split
          · refine msgsFrom_append ?_
              (msgsFrom_ite _ (msgsFrom_single _ _ _) (msgsFrom_nil _))
            split
            · exact msgsFrom_nil path
            · exact msgsFrom_append
                (msgsFrom_ite _ (msgsFrom_nil _) (msgsFrom_single _ _ _))
                (msgsFrom_ite _ (msgsFrom_single _ _ _) (msgsFrom_nil _))
          · refine msgsFrom_append (msgsFrom_append ?_
              (msgsFrom_ite _ (msgsFrom_single _ _ _) (msgsFrom_nil _))) ?_
            · split
              · exact msgsFrom_nil path
              · exact msgsFrom_append
                  (msgsFrom_ite _ (msgsFrom_nil _) (msgsFrom_single _ _ _))
                  (msgsFrom_ite _ (msgsFrom_single _ _ _) (msgsFrom_nil _))
            · split
              · exact msgsFrom_single _ _ _
              · exact msgsFrom_single _ _ _
        · exact sections234_msgs _ _ _ _ _
    · exact sections234_msgs _ _ _ _ _

theorem lintLines_msgs (pf : Chars → Option Chars) (path : Chars) :
    ∀ (ls : List Chars) (n : Nat) (st : ScanSt),
      MsgsFrom path (lintLines pf path ls n st).2 := by
  intro ls
  induction ls with
  | nil => intro n st m hm; simp [lintLines] at hm
  | cons l ls ih =>
    intro n st
    simp only [lintLines]
    exact msgsFrom_append (lintLine_msgs pf path n l st) (ih (n + 1) _)

theorem lint_file_msgs (pf : Chars → Option Chars) (path : Chars) (lines : List Chars) :
    MsgsFrom path (lint_file pf path lines) := by
  simp only [lint_file]
  refine msgsFrom_append (lintLines_msgs pf path lines 1 initSt) ?_
  intro m hm
  rcases List.mem_map.1 hm with ⟨f, hf, rfl⟩
  exact ⟨f.2, msgUnclosedBracket f.1, rfl⟩

/-- C1 amended: the engine keeps no duplicate-name registry — linting a
file emits only diagnostics tagged with that file's own path (never a
first-seen location from an earlier file), so redeclaring the same
`(type, name)` pair, in the same or another file, produces no duplicate
ERROR at all. -/
theorem C1_no_duplicate_registry (pf : Chars → Option Chars) (path : Chars)
    (lines : List Chars) (m : Chars) (hm : m ∈ lint_file pf path lines) :
    ∃ rest, m = path ++ ':' :: rest := by
  rcases lint_file_msgs pf path lines m hm with ⟨k, b, rfl⟩
  exact ⟨Nat.toDigits 10 k ++ ':' :: ' ' :: b, by simp [mkMsg]⟩

theorem C1_no_duplicate_registry_witness :
    ∃ rest, mkMsg "f".data 1 msgMismSq = "f".data ++ ':' :: rest :=
  C1_no_duplicate_registry parseOk "f".data ["]".data]
    (mkMsg "f".data 1 msgMismSq) (by decide)

/-! ### Tokenisation lemmas -/

theorem head_dropWhile_false {α : Type} {p : α → Bool} :
    ∀ {l : List α} {c : α} {cs : List α}, l.dropWhile p = c :: cs → p c = false := by
  intro l
  induction l with
  | nil => intro c cs h; simp at h
  | cons a l ih =>
    intro c cs h
    rw [List.dropWhile_cons] at h
    split at h
    · exact ih h
    · rename_i ha
      cases h
      simpa using ha

theorem splitWsF_head : ∀ (fuel : Nat) (s : Chars) (t0 : Chars) (ts : List Chars),
    s.length ≤ fuel → splitWsF fuel s = t0 :: ts →
    ∃ u, s.dropWhile isWs = t0 ++ u ∧ t0 ≠ [] := by
  intro fuel
  induction fuel with
  | zero =>
    intro s t0 ts hlen h
    simp [splitWsF] at h
  | succ fuel ih =>
    intro s t0 ts hlen h
    match s with
    | [] => simp [splitWsF] at h
    | c :: cs =>
      simp only [splitWsF] at h
      split at h
      · rename_i hws
        have hlen' : cs.length ≤ fuel := by
          simp [List.length_cons] at hlen; omega
        rcases ih cs t0 ts hlen' h with ⟨u, hu, hne⟩
        exact ⟨u, by rw [List.dropWhile_cons, if_pos hws]; exact hu, hne⟩
      · rename_i hws
        have hws' : isWs c = false := by simpa using hws
        rw [List.cons.injEq] at h
        rcases h with ⟨ht0, hts⟩
        refine ⟨cs.dropWhile (fun d => !isWs d), ?_, by rw [← ht0]; simp⟩
        rw [List.dropWhile_cons, if_neg (by simp [hws'])]
        rw [← ht0]
        simp [List.takeWhile_append_dropWhile]

theorem splitWs_head {s : Chars} {t0 : Chars} {ts : List Chars}
    (h : splitWs s = t0 :: ts) : ∃ u, s.dropWhile isWs = t0 ++ u ∧ t0 ≠ [] :=
  splitWsF_head s.length s t0 ts (le_refl _) h

theorem strip_head_not_ws {raw : Chars} {c : Char} {cs : Chars}
    (h : strip raw = c :: cs) : isWs c = false := by
  have h2 : (raw.dropWhile isWs).reverse =
      (raw.dropWhile isWs).reverse.takeWhile isWs ++
        (raw.dropWhile isWs).reverse.dropWhile isWs :=
    (List.takeWhile_append_dropWhile isWs (raw.dropWhile isWs).reverse).symm
  have h3 := congrArg List.reverse h2
  rw [List.reverse_reverse, List.reverse_append] at h3
  have h1 : ((raw.dropWhile isWs).reverse.dropWhile isWs).reverse = c :: cs := h
  rw [h1] at h3
  exact head_dropWhile_false (l := raw) (by rw [h3]; rfl)

theorem dropWhile_strip (raw : Chars) : (strip raw).dropWhile isWs = strip raw := by
  rcases h : strip raw with _ | ⟨c, cs⟩
  · rfl
  · rw [List.dropWhile_cons, if_neg (by simp [strip_head_not_ws h])]

/-- The first token of a stripped line is a prefix of it. -/
theorem splitWs_strip_head {raw : Chars} {t0 : Chars} {ts : List Chars}
    (h : splitWs (strip raw) = t0 :: ts) :
    ∃ u, strip raw = t0 ++ u ∧ t0 ≠ [] := by
  rcases splitWs_head h with ⟨u, hu, hne⟩
  rw [dropWhile_strip] at hu
  exact ⟨u, hu, hne⟩

theorem keywords_mem_iff (t0 : Chars) : KEYWORDS.contains t0 = true ↔
    (t0 = "object".data ∨ t0 = "apply".data ∨ t0 = "template".data) := by
  constructor
  · intro h
    have hm : t0 ∈ KEYWORDS := by
      have := List.elem_iff.1 h
      exact this
    simpa [KEYWORDS] using hm
  · intro h
    apply List.elem_iff.2
    rcases h with h | h | h <;> simp [KEYWORDS, h]

theorem keywords_not_head {c : Char} {rest : Chars}
    (ho : c ≠ 'o') (ha : c ≠ 'a') (ht : c ≠ 't') :
    KEYWORDS.contains (c :: rest) = false := by
  rw [Bool.eq_false_iff]
  intro hcon
  rcases (keywords_mem_iff _).1 hcon with h | h | h
  · rw [show "object".data = 'o' :: "bject".data from rfl] at h
    injection h with h1 _
    exact ho h1
  · rw [show "apply".data = 'a' :: "pply".data from rfl] at h
    injection h with h1 _
    exact ha h1
  · rw [show "template".data = 't' :: "emplate".data from rfl] at h
    injection h with h1 _
    exact ht h1

/-! ### Behaviour of clean top-level lines -/

theorem lintLine_skip (pf : Chars → Option Chars) (path : Chars) (n : Nat) (raw : Chars)
    (st : ScanSt)
    (h : ((strip raw).isEmpty || "//".data.isPrefixOf (strip raw)) = true) :
    lintLine pf path n raw st = (st, []) := by
  unfold lintLine
  simp only [h, if_true]

/-- With no tracked bracket characters on the line and a state outside any
object or multiline structure, sections 2–4 leave the state unchanged and
at most report unbalanced quotes. -/
theorem sections234_clean (pf : Chars → Option Chars) (path : Chars) (n : Nat) (s : Chars)
    (st : ScanSt)
    (h1 : s.count '[' = 0) (h2 : s.count ']' = 0)
    (h3 : s.count '\x7b' = 0) (h4 : s.count '\x7d' = 0)
    (hio : st.insideObject = false) (him : st.insideMulti = false) :
    sections234 pf path n s st =
      (st, if is_quotes_balanced s then [] else [mkMsg path n msgUnbal]) := by
  have hs2 : section2 path n s st = (st, []) := by
    simp only [section2, h1, h2, h3, h4, pushSquares, pushCurlies, closeSquares,
      closeCurlies, him]
    simp
  have hs3 : section3 pf path n s st = ([], false) := by
    simp only [section3, hio, him]
    simp
  simp only [sections234, hs2, hs3]
  cases hq : is_quotes_balanced s <;> simp [hq]

theorem lintLine_plain (pf : Chars → Option Chars) (path : Chars) (n : Nat) (raw : Chars)
    (t0 : Chars) (ts : List Chars)
    (hsp : splitWs (strip raw) = t0 :: ts)
    (hkw : KEYWORDS.contains t0 = false)
    (hskip : ((strip raw).isEmpty || "//".data.isPrefixOf (strip raw)) = false)
    (h1 : (strip raw).count '[' = 0) (h2 : (strip raw).count ']' = 0)
    (h3 : (strip raw).count '\x7b' = 0) (h4 : (strip raw).count '\x7d' = 0) :
    lintLine pf path n raw initSt =
      (initSt, if is_quotes_balanced (strip raw) then [] else [mkMsg path n msgUnbal]) := by
  simp only [lintLine]
  rw [if_neg (by simp [hskip]), if_pos (by decide)]
  simp only [hsp]
  rw [if_neg (fun hc : KEYWORDS.contains t0 = true => by
    rw [hkw] at hc; exact Bool.false_ne_true hc)]
  exact sections234_clean pf path n _ initSt h1 h2 h3 h4 rfl rfl

theorem lint_file_single (pf : Chars → Option Chars) (path raw : Chars) (l : List Chars)
    (h : lintLine pf path 1 raw initSt = (initSt, l)) :
    lint_file pf path [raw] = l := by
  simp only [lint_file, lintLines, h]
  simp [initSt]

theorem skip_false_of_kw {raw t0 u : Chars} (hu : strip raw = t0 ++ u)
    (hkw : KEYWORDS.contains t0 = true) :
    ((strip raw).isEmpty || "//".data.isPrefixOf (strip raw)) = false := by
  rcases (keywords_mem_iff t0).1 hkw with h | h | h <;> (subst h; rw [hu]; rfl)

/-- A top-level line whose first token is a recognized keyword and that
contains no `{` runs the suggestion branch of section 1 at the keyword
line itself and keeps the state unchanged. -/
theorem lintLine_kw_nobrace (pf : Chars → Option Chars) (path : Chars) (n : Nat)
    (raw : Chars) (st : ScanSt) (t0 t1 : Chars)
    (hio : st.insideObject = false) (him : st.insideMulti = false)
    (hsp : splitWs (strip raw) = [t0, t1])
    (hkw : KEYWORDS.contains t0 = true)
    (hty : VALID_OBJECT_TYPES.contains (stripQuotes t1) = true)
    (hnd : ((stripQuotes t1 == "Dependency".data) ||
        (stripQuotes t1 == "Notification".data)) = false)
    (hq : is_quotes_balanced (strip raw) = true)
    (hnb : (strip raw).contains '\x7b' = false)
    (hskip : ((strip raw).isEmpty || "//".data.isPrefixOf (strip raw)) = false) :
    lintLine pf path n raw st =
      (st, [match suggest_correction t0 KEYWORDS with
            | some sug => mkMsg path n (msgWarnKw t0 sug)
            | none => mkMsg path n (msgErrKw t0)]) := by
  simp only [lintLine]
  rw [if_neg (fun hc : ((strip raw).isEmpty || "//".data.isPrefixOf (strip raw)) = true => by
    rw [hskip] at hc; exact Bool.false_ne_true hc)]
  rw [if_pos (by simp [hio, him])]
  simp only [hsp]
  rw [if_pos hkw]
  rw [if_neg (fun hc : (strip raw).contains '\x7b' = true => by
    rw [hnb] at hc; exact Bool.false_ne_true hc)]
  rw [if_pos hty]
  rw [if_neg (fun hc : (t0 == "apply".data && ((stripQuotes t1 == "Dependency".data) ||
      (stripQuotes t1 == "Notification".data)) &&
      !(containsStr "to Host".data (strip raw) ||
        containsStr "to Service".data (strip raw))) = true => by
    rw [hnd] at hc; simp at hc)]
  rw [if_neg (fun hc : (!is_quotes_balanced (strip raw)) = true => by
    rw [hq] at hc; simp at hc)]
  simp

/-- C2 amended: a recognized-keyword declaration line with no opening
brace is not deferred to the next line at all — the engine immediately
emits exactly one WARN at the keyword line, claiming the keyword itself
"is not a valid keyword" and suggesting that same keyword, and it leaves
the scan state unchanged, so no open-brace expectation is carried to any
later line and no "missing opening brace" diagnostic exists. -/
theorem C2_keyword_line_without_brace (pf : Chars → Option Chars) (path : Chars) (n : Nat)
    (raw : Chars) (st : ScanSt) (t0 t1 : Chars)
    (hio : st.insideObject = false) (him : st.insideMulti = false)
    (hsp : splitWs (strip raw) = [t0, t1])
    (hkw : KEYWORDS.contains t0 = true)
    (hty : VALID_OBJECT_TYPES.contains (stripQuotes t1) = true)
    (hnd : ((stripQuotes t1 == "Dependency".data) ||
        (stripQuotes t1 == "Notification".data)) = false)
    (hq : is_quotes_balanced (strip raw) = true)
    (hnb : (strip raw).contains '\x7b' = false) :
    lintLine pf path n raw st = (st, [mkMsg path n (msgWarnKw t0 t0)]) := by
  rcases splitWs_strip_head hsp with ⟨u, hu, -⟩
  have hskip := skip_false_of_kw hu hkw
  have h := lintLine_kw_nobrace pf path n raw st t0 t1 hio him hsp hkw hty hnd hq hnb hskip
  rcases (keywords_mem_iff t0).1 hkw with h3 | h3 | h3
  · subst h3
    rw [h, show suggest_correction "object".data KEYWORDS = some "object".data from by decide]
  · subst h3
    rw [h, show suggest_correction "apply".data KEYWORDS = some "apply".data from by decide]
  · subst h3
    rw [h, show suggest_correction "template".data KEYWORDS = some "template".data from by decide]

/-- C2 counterexample: `object Host "srv1"` followed by a non-comment
line without `{` yields no "missing opening brace after keyword
declaration" ERROR at all — the whole file's diagnostics are one
immediate WARN at line 1 suggesting `object` for `object`. -/
theorem C2_counterexample :
    lint_file parseOk "f.conf".data ["object Host \x22srv1\x22".data, "x = 1".data] =
      [mkMsg "f.conf".data 1 (msgWarnKw "object".data "object".data)] := by
  rfl

theorem C2_keyword_line_without_brace_witness :
    lintLine parseOk "f".data 1 "object Host".data initSt =
      (initSt, [mkMsg "f".data 1 (msgWarnKw "object".data "object".data)]) :=
  C2_keyword_line_without_brace parseOk "f".data 1 "object Host".data initSt
    "object".data "Host".data rfl rfl (by decide) (by decide) (by decide) (by decide)
    (by decide) (by decide)

/-- C4 amended: a top-level line whose first token is keyword-like but
not a recognized keyword receives no keyword diagnostic at all (an
otherwise clean such line produces zero diagnostics); the
WARN/ERROR suggestion code is reachable only when the first token IS a
recognized keyword and the line lacks `{`, where the suggestion is always
the keyword itself. -/
theorem C4_unrecognized_token_no_diagnostic :
    (∀ (pf : Chars → Option Chars) (path raw : Chars) (t0 : Chars) (ts : List Chars),
        splitWs (strip raw) = t0 :: ts →
        KEYWORDS.contains t0 = false →
        (strip raw).count '[' = 0 → (strip raw).count ']' = 0 →
        (strip raw).count '\x7b' = 0 → (strip raw).count '\x7d' = 0 →
        is_quotes_balanced (strip raw) = true →
        lint_file pf path [raw] = []) ∧
    (∀ w ∈ KEYWORDS, suggest_correction w KEYWORDS = some w) := by
  constructor
  · intro pf path raw t0 ts hsp hkw h1 h2 h3 h4 hq
    by_cases hskip : ((strip raw).isEmpty || "//".data.isPrefixOf (strip raw)) = true
    · exact lint_file_single pf path raw [] (lintLine_skip pf path 1 raw initSt hskip)
    · have hskip' : ((strip raw).isEmpty || "//".data.isPrefixOf (strip raw)) = false :=
        Bool.eq_false_iff.2 hskip
      have hline := lintLine_plain pf path 1 raw t0 ts hsp hkw hskip' h1 h2 h3 h4
      rw [hq] at hline
      simp only [if_true] at hline
      exact lint_file_single pf path raw [] (by simpa using hline)
  · intro w hw
    have hw' : w = "object".data ∨ w = "apply".data ∨ w = "template".data := by
      simpa [KEYWORDS] using hw
    rcases hw' with h | h | h <;> (subst h; decide)

theorem C4_unrecognized_token_no_diagnostic_witness :
    lint_file parseOk "f".data ["objct Host".data] = [] ∧
    suggest_correction "object".data KEYWORDS = some "object".data :=
  ⟨C4_unrecognized_token_no_diagnostic.1 parseOk "f".data "objct Host".data
      "objct".data ["Host".data] (by decide) (by decide) (by decide) (by decide)
      (by decide) (by decide) (by decide),
   C4_unrecognized_token_no_diagnostic.2 "object".data (by decide)⟩

/-- C5 amended: there is no block-comment state at all — only blank lines
and lines starting with `//` are skipped.  A line opening (or wholly
forming) a `/* ... */` block comment is processed by every validator like
ordinary text; in particular a comment line with unbalanced quote
characters yields the unbalanced-quotes ERROR instead of being skipped. -/
theorem C5_block_comment_not_skipped (pf : Chars → Option Chars) (path raw : Chars)
    (hpfx : "/*".data.isPrefixOf (strip raw) = true)
    (h1 : (strip raw).count '[' = 0) (h2 : (strip raw).count ']' = 0)
    (h3 : (strip raw).count '\x7b' = 0) (h4 : (strip raw).count '\x7d' = 0)
    (hq : is_quotes_balanced (strip raw) = false) :
    lint_file pf path [raw] = [mkMsg path 1 msgUnbal] := by
  have hpre : ∃ w, strip raw = '/' :: '*' :: w := by
    rcases (List.isPrefixOf_iff_prefix.1 hpfx) with ⟨w, hw⟩
    exact ⟨w, by rw [← hw]; rfl⟩
  rcases hpre with ⟨w, hw⟩
  have hskip : ((strip raw).isEmpty || "//".data.isPrefixOf (strip raw)) = false := by
    rw [hw]; rfl
  have hsp : splitWs (strip raw) = ('/' :: '*' :: w.takeWhile (fun d => !isWs d)) ::
      splitWsF (w.length + 1) (w.dropWhile (fun d => !isWs d)) := by
    rw [hw]; rfl
  have hkw : KEYWORDS.contains ('/' :: '*' :: w.takeWhile (fun d => !isWs d)) = false :=
    keywords_not_head (by decide) (by decide) (by decide)
  have hline := lintLine_plain pf path 1 raw _ _ hsp hkw hskip h1 h2 h3 h4
  rw [hq] at hline
  simp only [Bool.false_eq_true, if_false] at hline
  exact lint_file_single pf path raw _ hline

theorem C5_block_comment_not_skipped_witness :
    lint_file parseOk "f".data ["/* \x22 */".data] = [mkMsg "f".data 1 msgUnbal] :=
  C5_block_comment_not_skipped parseOk "f".data "/* \x22 */".data
    (by decide) (by decide) (by decide) (by decide) (by decide) (by decide)

end I2L
